import Mathlib

/-!
Shallow embedding of the configmap file source
(sources/configmap-source/configmapsource.go) of go-archaius.

Design of the embedding:

* Go maps (map[string]*ConfigInfo, map[string]interface{}) are modelled as
  association lists; the list order stands for the (unspecified) iteration
  order of the Go map.  All properties proved below are insensitive to that
  order (stores built by the code have pairwise distinct keys).
* The opaque value type interface{} is a type parameter V; reflect.DeepEqual
  is modelled by decidable equality on V.
* A *ConfigInfo pointer is modelled as Option (ConfigInfo V); the value nil
  is none.  Go code that writes through a nil pointer (confInfo.Value = nil
  in GetConfigurationByKey and compareUpdate) would panic, so the functions
  containing those branches return Option results, none meaning panic.
* uint32 priorities are Nat values; math.MaxUint32 is the explicit constant
  4294967295 used by the source as the "not registered" sentinel.
* filepath.Walk is modelled by the ordered sequence of visited nodes
  (regular file with its parsed mapping, directory, or unsupported node);
  the walk callback of AddFile is translated per visited item, and an error
  returned by the callback aborts the remainder of the sequence, exactly as
  filepath.Walk does.  Content handlers are modelled as already-applied:
  a regular file carries the flat key/value mapping its handler produces.
-/

set_option linter.unusedVariables false
set_option linter.unusedSectionVars false
set_option linter.unnecessarySimpa false
set_option synthInstance.maxSize 512

namespace ConfigMap

/-- Constant ConfigMapConfigSourceConst of the source. -/
def ConfigMapConfigSourceConst : String := "ConfigMapSource"

/-- The math.MaxUint32 sentinel used for "no registered priority". -/
def maxUInt32 : Nat := 4294967295

/-- ConfigInfo of the source: file path of the owning source and the value. -/
structure ConfigInfo (V : Type) where
  FilePath : String
  Value : V
deriving DecidableEq, Repr

/-- Entry of the files registry ([]file in the source): a path and its
uint32 priority. -/
structure file where
  filePath : String
  priority : Nat
deriving DecidableEq, Repr

/-- Event types of core.Event. -/
inductive EventType where
  | Create
  | Update
  | Delete
deriving DecidableEq, Repr

/-- core.Event as produced by compareUpdate and addOrCreateConf. -/
structure Event (V : Type) where
  EventSource : String
  Key : String
  EventType : EventType
  Value : V
deriving DecidableEq, Repr

variable {V : Type} [DecidableEq V]

/-- Store type: the Configurations field, a map from key to *ConfigInfo
(none models a nil pointer). -/
abbrev Store (V : Type) := List (String × Option (ConfigInfo V))

/-- Priority lookup loop of compareUpdate (lines 465-470): iterate the files
registry, the last matching entry wins, default math.MaxUint32. -/
def lookupPriority (files : List file) (filePath : String) : Nat :=
  files.foldl (fun acc f => if f.filePath = filePath then f.priority else acc) maxUInt32

/-- Loop body of handlePriority (lines 238-248): rebuild the registry,
inserting a fresh (filePath, priority) entry in front of every entry that
matches both fields, and remembering whether such an entry was seen. -/
def handlePriorityLoop (filePath : String) (priority : Nat) :
    List file → List file × Bool
  | [] => ([], false)
  | f :: rest =>
    let (tail, set) := handlePriorityLoop filePath priority rest
    if f.filePath = filePath ∧ f.priority = priority then
      (⟨filePath, priority⟩ :: f :: tail, true)
    else
      (f :: tail, set)

/-- handlePriority (lines 234-261): the loop above, then, when no entry
matched both fields, append the new entry at the end.  Always succeeds
(the Go function unconditionally returns nil). -/
def handlePriority (files : List file) (filePath : String) (priority : Nat) :
    List file :=
  let (newFilePriority, prioritySet) := handlePriorityLoop filePath priority files
  if ¬ prioritySet then newFilePriority ++ [⟨filePath, priority⟩]
  else newFilePriority

/-- Loop of compareUpdate over the current Configurations (lines 476-528).
Returns none when a nil entry is reached (the Go code assigns through the
nil pointer and panics).  Otherwise returns the surviving/updated entries
(fileConfs) and the Update/Delete events, in iteration order. -/
def compareUpdateLoop (files : List file) (filePath : String)
    (filePathPriority : Nat) (newconf : List (String × V)) :
    Store V → Option (Store V × List (Event V))
  | [] => some ([], [])
  | (key, confInfo?) :: rest =>
    match confInfo? with
    | none => none
    | some confInfo =>
      match compareUpdateLoop files filePath filePathPriority newconf rest with
      | none => none
      | some (fileConfs, events) =>
        if confInfo.FilePath = filePath then
          match List.lookup key newconf with
          | none =>
            some (fileConfs,
              ⟨ConfigMapConfigSourceConst, key, EventType.Delete, confInfo.Value⟩ :: events)
          | some newConfValue =>
            if confInfo.Value = newConfValue then
              some ((key, some confInfo) :: fileConfs, events)
            else
              some ((key, some { confInfo with Value := newConfValue }) :: fileConfs,
                ⟨ConfigMapConfigSourceConst, key, EventType.Update, newConfValue⟩ :: events)
        else
          match List.lookup key newconf with
          | some newConfValue =>
            let priority := lookupPriority files confInfo.FilePath
            if priority = filePathPriority then
              some ((key, some { confInfo with Value := newConfValue }) :: fileConfs, events)
            else if filePathPriority < priority then
              some ((key, some { confInfo with Value := newConfValue }) :: fileConfs,
                ⟨ConfigMapConfigSourceConst, key, EventType.Update, newConfValue⟩ :: events)
            else
              some ((key, some confInfo) :: fileConfs, events)
          | none => some ((key, some confInfo) :: fileConfs, events)

/-- addOrCreateConf (lines 537-558): for every key of newconf not already in
fileConfs, append a Create event and a fresh entry owned by filePath. -/
def addOrCreateConf (fileConfs : Store V) (newconf : List (String × V))
    (events : List (Event V)) (filePath : String) :
    Store V × List (Event V) :=
  match newconf with
  | [] => (fileConfs, events)
  | (key, value) :: rest =>
    if (List.lookup key fileConfs).isSome then
      addOrCreateConf fileConfs rest events filePath
    else
      addOrCreateConf (fileConfs ++ [(key, some ⟨filePath, value⟩)]) rest
        (events ++ [⟨ConfigMapConfigSourceConst, key, EventType.Create, value⟩]) filePath

/-- compareUpdate (lines 455-535): look up the priority of filePath in the
registry; when it is math.MaxUint32 (unregistered), return no events and
leave the store untouched; otherwise run the loop over the store and then
addOrCreateConf.  The outer none means the Go code panicked on a nil
store entry. -/
def compareUpdate (files : List file) (Configurations : Store V)
    (newconf : List (String × V)) (filePath : String) :
    Option (Store V × List (Event V)) :=
  let filePathPriority := lookupPriority files filePath
  if filePathPriority = maxUInt32 then
    some (Configurations, [])
  else
    match compareUpdateLoop files filePath filePathPriority newconf Configurations with
    | none => none
    | some (fileConfs, events) =>
      some (addOrCreateConf fileConfs newconf events filePath)

/-- GetConfigurationByKey (lines 280-296): iterate the store; a nil entry
makes the Go code assign through the nil pointer (panic: modelled as none);
a matching key returns its value; otherwise the error string of the source. -/
def GetConfigurationByKey : Store V → String → Option (Except String V)
  | [], _ => some (Except.error "key does not exist")
  | (_, none) :: _, _ => none
  | (ckey, some confInfo) :: rest, key =>
    if ckey = key then some (Except.ok confInfo.Value)
    else GetConfigurationByKey rest key

/-- Fold a sequence of merge operations (newconf, filePath) over a store,
propagating a panic; models a store built only by compareUpdate calls. -/
def mergeList (files : List file) : Store V → List (List (String × V) × String) →
    Option (Store V)
  | st, [] => some st
  | st, (newconf, filePath) :: rest =>
    match compareUpdate files st newconf filePath with
    | none => none
    | some (st', _) => mergeList files st' rest

/-- State of the configMapSource relevant to AddFile: the files registry and
the Configurations store. -/
structure CMState (V : Type) where
  files : List file
  Configurations : Store V
deriving DecidableEq, Repr

/-- Node kinds met by the filepath.Walk callback of AddFile, in visit order:
a regular file with the mapping its content handler produces, a directory
(only added to the watcher), or a node of unsupported type. -/
inductive WalkItem (V : Type) where
  | regular (path : String) (conf : List (String × V))
  | directory (path : String)
  | special (path : String)
deriving DecidableEq, Repr

/-- isFileSrcExist (lines 176-185): the root path is already registered. -/
def isFileSrcExist (cm : CMState V) (filePath : String) : Bool :=
  cm.files.any (fun f => f.filePath = filePath)

/-- Walk callback of AddFile applied to the ordered visit sequence
(lines 120-157).  A directory is only watched; a regular file goes through
handleFile (handlePriority then compareUpdate, lines 204-232); an
unsupported node makes the callback return an error, which aborts the
remaining walk.  The outer none is a panic inside compareUpdate; the inner
Option String is the error the walk returns. -/
def walkItems (priority : Nat) : CMState V → List (WalkItem V) →
    Option (CMState V × Option String)
  | cm, [] => some (cm, none)
  | cm, WalkItem.directory _ :: rest => walkItems priority cm rest
  | cm, WalkItem.special path :: rest =>
    some (cm, some ("file type of [" ++ path ++ "] not supported"))
  | cm, WalkItem.regular path conf :: rest =>
    let files' := handlePriority cm.files path priority
    match compareUpdate files' cm.Configurations conf path with
    | none => none
    | some (st', _events) => walkItems priority ⟨files', st'⟩ rest

/-- AddFile (lines 108-160) on an existing root path with the given visit
sequence: an already-registered root returns nil immediately; otherwise the
walk runs, and (line 159) AddFile returns nil regardless of the error the
walk produced: the assignment err = filepath.Walk(...) is followed by
return nil, so the walk error is dropped. -/
def AddFile (cm : CMState V) (rootPath : String) (items : List (WalkItem V))
    (priority : Nat) : Option (CMState V × Option String) :=
  if isFileSrcExist cm rootPath then some (cm, none)
  else
    match walkItems priority cm items with
    | none => none
    | some (cm', _walkErr) => some (cm', none)

/-- Keys of an association list. -/
def keys {α : Type} (st : List (String × α)) : List String := st.map Prod.fst

/-- Every entry of the store is a non-nil pointer. -/
def allSome (st : Store V) : Prop := ∀ p ∈ st, p.2.isSome

instance (st : Store V) : Decidable (allSome st) :=
  inferInstanceAs (Decidable (∀ p ∈ st, p.2.isSome))

/-- Transfer function of one iteration of the compareUpdate loop for a
non-nil entry (key, ci): the surviving entry (none when dropped) and the
event emitted for it (none when silent).  Used to characterise the loop. -/
def mergeEntry (files : List file) (filePath : String) (filePathPriority : Nat)
    (newconf : List (String × V)) (key : String) (ci : ConfigInfo V) :
    Option (ConfigInfo V) × Option (Event V) :=
  if ci.FilePath = filePath then
    match List.lookup key newconf with
    | none => (none, some ⟨ConfigMapConfigSourceConst, key, EventType.Delete, ci.Value⟩)
    | some v =>
      if ci.Value = v then (some ci, none)
      else (some { ci with Value := v },
        some ⟨ConfigMapConfigSourceConst, key, EventType.Update, v⟩)
  else
    match List.lookup key newconf with
    | some v =>
      if lookupPriority files ci.FilePath = filePathPriority then
        (some { ci with Value := v }, none)
      else if filePathPriority < lookupPriority files ci.FilePath then
        (some { ci with Value := v },
          some ⟨ConfigMapConfigSourceConst, key, EventType.Update, v⟩)
      else (some ci, none)
    | none => (some ci, none)

/-- Surviving entries of the compareUpdate loop, as a filterMap. -/
def loopStore (files : List file) (filePath : String) (filePathPriority : Nat)
    (newconf : List (String × V)) (st : Store V) : Store V :=
  st.filterMap (fun p => match p.2 with
    | none => none
    | some ci =>
      ((mergeEntry files filePath filePathPriority newconf p.1 ci).1).map
        (fun ci' => (p.1, some ci')))

/-- Events of the compareUpdate loop, as a filterMap. -/
def loopEvents (files : List file) (filePath : String) (filePathPriority : Nat)
    (newconf : List (String × V)) (st : Store V) : List (Event V) :=
  st.filterMap (fun p => match p.2 with
    | none => none
    | some ci => (mergeEntry files filePath filePathPriority newconf p.1 ci).2)

section AssocLemmas

variable {α : Type}

theorem lookup_cons_eq (k K : String) (v : α) (l : List (String × α)) :
    List.lookup K ((k, v) :: l) = if k = K then some v else List.lookup K l := by
  by_cases h : k = K
  · subst h; simp [List.lookup]
  · have hb : (K == k) = false := by simp [Ne.symm h]
    simp [List.lookup, hb, h]

theorem lookup_none_iff (K : String) (l : List (String × α)) :
    List.lookup K l = none ↔ K ∉ keys l := by
  induction l with
  | nil => simp [List.lookup, keys]
  | cons p rest ih =>
    obtain ⟨k, v⟩ := p
    rw [lookup_cons_eq]
    by_cases h : k = K
    · subst h; simp [keys]
    · rw [if_neg h, ih]
      simp only [keys, List.map_cons, List.mem_cons]
      constructor
      · intro hm hor
        rcases hor with h1 | h1
        · exact h h1.symm
        · exact hm h1
      · intro hm h1
        exact hm (Or.inr h1)

theorem mem_of_lookup_eq_some {K : String} {x : α} {l : List (String × α)}
    (h : List.lookup K l = some x) : (K, x) ∈ l := by
  induction l with
  | nil => simp [List.lookup] at h
  | cons p rest ih =>
    obtain ⟨k, v⟩ := p
    rw [lookup_cons_eq] at h
    by_cases hk : k = K
    · subst hk
      rw [if_pos rfl] at h
      injection h with h
      simp [h]
    · rw [if_neg hk] at h
      exact List.mem_cons_of_mem _ (ih h)

theorem lookup_of_mem_nodup {K : String} {x : α} {l : List (String × α)}
    (hnd : (keys l).Nodup) (h : (K, x) ∈ l) : List.lookup K l = some x := by
  induction l with
  | nil => simp at h
  | cons p rest ih =>
    obtain ⟨k, v⟩ := p
    simp only [keys, List.map_cons, List.nodup_cons] at hnd
    rcases List.mem_cons.mp h with h | h
    · injection h with h1 h2
      subst h1; subst h2
      rw [lookup_cons_eq, if_pos rfl]
    · have hk : k ≠ K := by
        intro hkK
        subst hkK
        exact hnd.1 (List.mem_map.mpr ⟨(k, x), h, rfl⟩)
      rw [lookup_cons_eq, if_neg hk]
      exact ih hnd.2 h

theorem lookup_append_single (l : List (String × α)) (k K : String) (x : α) :
    List.lookup K (l ++ [(k, x)]) =
      match List.lookup K l with
      | some y => some y
      | none => if k = K then some x else none := by
  induction l with
  | nil =>
    simp only [List.nil_append]
    rw [lookup_cons_eq]
    rfl
  | cons p rest ih =>
    obtain ⟨k', v'⟩ := p
    rw [List.cons_append, lookup_cons_eq, lookup_cons_eq]
    by_cases h : k' = K
    · simp [if_pos h]
    · simp only [if_neg h]
      exact ih

end AssocLemmas

theorem mergeEntry_filePath {files : List file} {fp : String} {fpp : Nat}
    {nc : List (String × V)} {k : String} {ci ci' : ConfigInfo V}
    (h : (mergeEntry files fp fpp nc k ci).1 = some ci') :
    ci'.FilePath = ci.FilePath := by
  unfold mergeEntry at h
  split at h
  · split at h
    · simp at h
    · split at h
      · injection h with h; rw [← h]
      · injection h with h; rw [← h]
  · split at h
    · split at h
      · injection h with h; rw [← h]
      · split at h
        · injection h with h; rw [← h]
        · injection h with h; rw [← h]
    · injection h with h; rw [← h]

theorem mergeEntry_event {files : List file} {fp : String} {fpp : Nat}
    {nc : List (String × V)} {k : String} {ci : ConfigInfo V} {e : Event V}
    (h : (mergeEntry files fp fpp nc k ci).2 = some e) :
    e.Key = k ∧ (e.EventType = EventType.Update ∨ e.EventType = EventType.Delete) := by
  unfold mergeEntry at h
  split at h
  · split at h
    · injection h with h; rw [← h]; exact ⟨rfl, Or.inr rfl⟩
    · split at h
      · simp at h
      · injection h with h; rw [← h]; exact ⟨rfl, Or.inl rfl⟩
  · split at h
    · split at h
      · simp at h
      · split at h
        · injection h with h; rw [← h]; exact ⟨rfl, Or.inl rfl⟩
        · simp at h
    · simp at h

theorem mergeEntry_drop {files : List file} {fp : String} {fpp : Nat}
    {nc : List (String × V)} {k : String} {ci : ConfigInfo V}
    (h : (mergeEntry files fp fpp nc k ci).1 = none) :
    List.lookup k nc = none ∧ ci.FilePath = fp ∧
      (mergeEntry files fp fpp nc k ci).2 =
        some ⟨ConfigMapConfigSourceConst, k, EventType.Delete, ci.Value⟩ := by
  unfold mergeEntry at h
  split at h
  next hfp =>
    split at h
    next hlk =>
      refine ⟨hlk, hfp, ?_⟩
      unfold mergeEntry
      rw [if_pos hfp, hlk]
    next v hlk =>
      split at h
      · simp at h
      · simp at h
  next hfp =>
    split at h
    next v hlk =>
      split at h
      · simp at h
      · split at h
        · simp at h
        · simp at h
    next hlk => simp at h

theorem allSome_cons_elim {p : String × Option (ConfigInfo V)} {rest : Store V}
    (h : allSome (p :: rest)) : allSome rest :=
  fun q hq => h q (List.mem_cons_of_mem _ hq)

theorem compareUpdateLoop_eq (files : List file) (fp : String) (fpp : Nat)
    (nc : List (String × V)) (st : Store V) (hall : allSome st) :
    compareUpdateLoop files fp fpp nc st =
      some (loopStore files fp fpp nc st, loopEvents files fp fpp nc st) := by
  induction st with
  | nil => rfl
  | cons p rest ih =>
    obtain ⟨key, confInfo?⟩ := p
    have hh : confInfo?.isSome := hall (key, confInfo?) (List.mem_cons_self _ _)
    rw [Option.isSome_iff_exists] at hh
    obtain ⟨ci, rfl⟩ := hh
    have hrest := allSome_cons_elim hall
    by_cases hfp : ci.FilePath = fp
    · cases hlk : List.lookup key nc with
      | none =>
        simp [compareUpdateLoop, ih hrest, loopStore, loopEvents, List.filterMap_cons,
          mergeEntry, hfp, hlk]
      | some v =>
        by_cases hv : ci.Value = v
        · simp [compareUpdateLoop, ih hrest, loopStore, loopEvents, List.filterMap_cons,
            mergeEntry, hfp, hlk, hv]
        · simp [compareUpdateLoop, ih hrest, loopStore, loopEvents, List.filterMap_cons,
            mergeEntry, hfp, hlk, hv]
    · cases hlk : List.lookup key nc with
      | none =>
        simp [compareUpdateLoop, ih hrest, loopStore, loopEvents, List.filterMap_cons,
          mergeEntry, hfp, hlk]
      | some v =>
        by_cases h1 : lookupPriority files ci.FilePath = fpp
        · simp [compareUpdateLoop, ih hrest, loopStore, loopEvents, List.filterMap_cons,
            mergeEntry, hfp, hlk, h1]
        · by_cases h2 : fpp < lookupPriority files ci.FilePath
          · simp [compareUpdateLoop, ih hrest, loopStore, loopEvents, List.filterMap_cons,
              mergeEntry, hfp, hlk, h1, h2]
          · simp [compareUpdateLoop, ih hrest, loopStore, loopEvents, List.filterMap_cons,
              mergeEntry, hfp, hlk, h1, h2]

theorem mem_keys_loopStore {files : List file} {fp : String} {fpp : Nat}
    {nc : List (String × V)} {st : Store V} {K : String}
    (h : K ∈ keys (loopStore files fp fpp nc st)) : K ∈ keys st := by
  induction st with
  | nil => simpa [loopStore, keys] using h
  | cons p rest ih =>
    obtain ⟨k, oci⟩ := p
    simp only [keys, List.map_cons, List.mem_cons]
    cases oci with
    | none =>
      have he : loopStore files fp fpp nc ((k, none) :: rest) =
          loopStore files fp fpp nc rest := by simp [loopStore]
      rw [he] at h
      exact Or.inr (ih h)
    | some ci =>
      cases hm : (mergeEntry files fp fpp nc k ci).1 with
      | none =>
        have he : loopStore files fp fpp nc ((k, some ci) :: rest) =
            loopStore files fp fpp nc rest := by simp [loopStore, hm]
        rw [he] at h
        exact Or.inr (ih h)
      | some ci' =>
        have he : loopStore files fp fpp nc ((k, some ci) :: rest) =
            (k, some ci') :: loopStore files fp fpp nc rest := by simp [loopStore, hm]
        rw [he] at h
        simp only [keys, List.map_cons, List.mem_cons] at h
        rcases h with h | h
        · exact Or.inl h
        · exact Or.inr (ih h)

theorem allSome_loopStore (files : List file) (fp : String) (fpp : Nat)
    (nc : List (String × V)) (st : Store V) :
    allSome (loopStore files fp fpp nc st) := by
  intro p hp
  simp only [loopStore, List.mem_filterMap] at hp
  obtain ⟨q, hq, hf⟩ := hp
  obtain ⟨k, oci⟩ := q
  cases oci with
  | none => simp at hf
  | some ci =>
    cases hm : (mergeEntry files fp fpp nc k ci).1 with
    | none => simp only at hf; rw [hm] at hf; simp at hf
    | some ci' =>
      simp only at hf
      rw [hm] at hf
      injection hf with hf
      rw [← hf]
      rfl

theorem nodup_keys_loopStore {files : List file} {fp : String} {fpp : Nat}
    {nc : List (String × V)} {st : Store V} (hnd : (keys st).Nodup) :
    (keys (loopStore files fp fpp nc st)).Nodup := by
  induction st with
  | nil => simp [loopStore, keys]
  | cons p rest ih =>
    obtain ⟨k, oci⟩ := p
    simp only [keys, List.map_cons, List.nodup_cons] at hnd
    cases oci with
    | none =>
      have he : loopStore files fp fpp nc ((k, none) :: rest) =
          loopStore files fp fpp nc rest := by simp [loopStore]
      rw [he]
      exact ih hnd.2
    | some ci =>
      cases hm : (mergeEntry files fp fpp nc k ci).1 with
      | none =>
        have he : loopStore files fp fpp nc ((k, some ci) :: rest) =
            loopStore files fp fpp nc rest := by simp [loopStore, hm]
        rw [he]
        exact ih hnd.2
      | some ci' =>
        have he : loopStore files fp fpp nc ((k, some ci) :: rest) =
            (k, some ci') :: loopStore files fp fpp nc rest := by simp [loopStore, hm]
        rw [he]
        simp only [keys, List.map_cons, List.nodup_cons]
        exact ⟨fun hmem => hnd.1 (mem_keys_loopStore hmem), ih hnd.2⟩

theorem lookup_loopStore (files : List file) (fp : String) (fpp : Nat)
    (nc : List (String × V)) (st : Store V) (hnd : (keys st).Nodup) (K : String) :
    List.lookup K (loopStore files fp fpp nc st) =
      match List.lookup K st with
      | some (some ci) => ((mergeEntry files fp fpp nc K ci).1).map some
      | some none => none
      | none => none := by
  induction st with
  | nil => rfl
  | cons p rest ih =>
    obtain ⟨k, oci⟩ := p
    simp only [keys, List.map_cons, List.nodup_cons] at hnd
    have hnone : K ∉ keys rest → List.lookup K (loopStore files fp fpp nc rest) = none :=
      fun hK => (lookup_none_iff _ _).mpr (fun hmem => hK (mem_keys_loopStore hmem))
    by_cases hk : k = K
    · subst hk
      rw [lookup_cons_eq, if_pos rfl]
      cases oci with
      | none =>
        have he : loopStore files fp fpp nc ((k, none) :: rest) =
            loopStore files fp fpp nc rest := by simp [loopStore]
        rw [he]
        exact hnone hnd.1
      | some ci =>
        cases hm : (mergeEntry files fp fpp nc k ci).1 with
        | none =>
          have he : loopStore files fp fpp nc ((k, some ci) :: rest) =
              loopStore files fp fpp nc rest := by simp [loopStore, hm]
          rw [he]
          simp [hm, hnone hnd.1]
        | some ci' =>
          have he : loopStore files fp fpp nc ((k, some ci) :: rest) =
              (k, some ci') :: loopStore files fp fpp nc rest := by simp [loopStore, hm]
          rw [he, lookup_cons_eq, if_pos rfl]
          simp [hm]
    · rw [lookup_cons_eq, if_neg hk]
      cases oci with
      | none =>
        have he : loopStore files fp fpp nc ((k, none) :: rest) =
            loopStore files fp fpp nc rest := by simp [loopStore]
        rw [he]
        exact ih hnd.2
      | some ci =>
        cases hm : (mergeEntry files fp fpp nc k ci).1 with
        | none =>
          have he : loopStore files fp fpp nc ((k, some ci) :: rest) =
              loopStore files fp fpp nc rest := by simp [loopStore, hm]
          rw [he]
          exact ih hnd.2
        | some ci' =>
          have he : loopStore files fp fpp nc ((k, some ci) :: rest) =
              (k, some ci') :: loopStore files fp fpp nc rest := by simp [loopStore, hm]
          rw [he, lookup_cons_eq, if_neg hk]
          exact ih hnd.2

theorem mem_loopEvents {files : List file} {fp : String} {fpp : Nat}
    {nc : List (String × V)} {st : Store V} {e : Event V}
    (h : e ∈ loopEvents files fp fpp nc st) :
    e.Key ∈ keys st ∧ (e.EventType = EventType.Update ∨ e.EventType = EventType.Delete) := by
  simp only [loopEvents, List.mem_filterMap] at h
  obtain ⟨q, hq, hf⟩ := h
  obtain ⟨k, oci⟩ := q
  cases oci with
  | none => simp at hf
  | some ci =>
    simp only at hf
    have hev := mergeEntry_event hf
    refine ⟨?_, hev.2⟩
    rw [hev.1]
    exact List.mem_map.mpr ⟨(k, some ci), hq, rfl⟩

theorem loopEvents_filter_of_not_mem {files : List file} {fp : String} {fpp : Nat}
    {nc : List (String × V)} {st : Store V} {K : String} (h : K ∉ keys st) :
    (loopEvents files fp fpp nc st).filter (fun e => e.Key == K) = [] := by
  apply List.filter_eq_nil_iff.mpr
  intro e he
  have hm := mem_loopEvents he
  simp only [ne_eq, beq_iff_eq]
  intro h'
  exact h (h' ▸ hm.1)

theorem filter_loopEvents (files : List file) (fp : String) (fpp : Nat)
    (nc : List (String × V)) (st : Store V) (hnd : (keys st).Nodup) (K : String) :
    (loopEvents files fp fpp nc st).filter (fun e => e.Key == K) =
      match List.lookup K st with
      | some (some ci) => ((mergeEntry files fp fpp nc K ci).2).toList
      | some none => []
      | none => [] := by
  induction st with
  | nil => rfl
  | cons p rest ih =>
    obtain ⟨k, oci⟩ := p
    simp only [keys, List.map_cons, List.nodup_cons] at hnd
    by_cases hk : k = K
    · subst hk
      rw [lookup_cons_eq, if_pos rfl]
      cases oci with
      | none =>
        have he : loopEvents files fp fpp nc ((k, none) :: rest) =
            loopEvents files fp fpp nc rest := by simp [loopEvents]
        rw [he]
        exact loopEvents_filter_of_not_mem hnd.1
      | some ci =>
        cases hm : (mergeEntry files fp fpp nc k ci).2 with
        | none =>
          have he : loopEvents files fp fpp nc ((k, some ci) :: rest) =
              loopEvents files fp fpp nc rest := by simp [loopEvents, hm]
          rw [he]
          simp [hm, loopEvents_filter_of_not_mem hnd.1]
        | some e =>
          have he : loopEvents files fp fpp nc ((k, some ci) :: rest) =
              e :: loopEvents files fp fpp nc rest := by simp [loopEvents, hm]
          rw [he]
          have hek : e.Key = k := (mergeEntry_event hm).1
          simp [List.filter_cons, hek, loopEvents_filter_of_not_mem hnd.1, hm]
    · rw [lookup_cons_eq, if_neg hk]
      cases oci with
      | none =>
        have he : loopEvents files fp fpp nc ((k, none) :: rest) =
            loopEvents files fp fpp nc rest := by simp [loopEvents]
        rw [he]
        exact ih hnd.2
      | some ci =>
        cases hm : (mergeEntry files fp fpp nc k ci).2 with
        | none =>
          have he : loopEvents files fp fpp nc ((k, some ci) :: rest) =
              loopEvents files fp fpp nc rest := by simp [loopEvents, hm]
          rw [he]
          exact ih hnd.2
        | some e =>
          have he : loopEvents files fp fpp nc ((k, some ci) :: rest) =
              e :: loopEvents files fp fpp nc rest := by simp [loopEvents, hm]
          rw [he]
          have hek : e.Key = k := (mergeEntry_event hm).1
          have hne : (e.Key == K) = false := by
            rw [hek]
            exact beq_eq_false_iff_ne.mpr hk
          simp only [List.filter_cons, hne]
          exact ih hnd.2

theorem addOrCreateConf_lookup (fcs : Store V) (nc : List (String × V))
    (evs : List (Event V)) (fp : String) (K : String) :
    List.lookup K (addOrCreateConf fcs nc evs fp).1 =
      match List.lookup K fcs with
      | some x => some x
      | none => (List.lookup K nc).map (fun v => some ⟨fp, v⟩) := by
  induction nc generalizing fcs evs with
  | nil =>
    simp only [addOrCreateConf]
    cases List.lookup K fcs <;> rfl
  | cons q rest ih =>
    obtain ⟨k, v⟩ := q
    by_cases hss : (List.lookup k fcs).isSome
    · rw [show addOrCreateConf fcs ((k, v) :: rest) evs fp =
          addOrCreateConf fcs rest evs fp by simp [addOrCreateConf, hss]]
      rw [ih]
      by_cases hk : k = K
      · subst hk
        rw [Option.isSome_iff_exists] at hss
        obtain ⟨x, hx⟩ := hss
        rw [hx]
      · rw [lookup_cons_eq, if_neg hk]
    · rw [show addOrCreateConf fcs ((k, v) :: rest) evs fp =
          addOrCreateConf (fcs ++ [(k, some ⟨fp, v⟩)]) rest
            (evs ++ [⟨ConfigMapConfigSourceConst, k, EventType.Create, v⟩]) fp by
          simp [addOrCreateConf, hss]]
      rw [ih]
      have hnone : List.lookup k fcs = none := Option.not_isSome_iff_eq_none.mp hss
      by_cases hk : k = K
      · subst hk
        simp [lookup_append_single, hnone, lookup_cons_eq]
      · cases hKf : List.lookup K fcs with
        | some x => simp [lookup_append_single, hKf, lookup_cons_eq, hk]
        | none => simp [lookup_append_single, hKf, lookup_cons_eq, hk]

theorem addOrCreateConf_filter (fcs : Store V) (nc : List (String × V))
    (evs : List (Event V)) (fp : String) (K : String) :
    ((addOrCreateConf fcs nc evs fp).2).filter (fun e => e.Key == K) =
      evs.filter (fun e => e.Key == K) ++
        (match List.lookup K fcs with
         | some _ => []
         | none =>
           match List.lookup K nc with
           | some v => [⟨ConfigMapConfigSourceConst, K, EventType.Create, v⟩]
           | none => []) := by
  induction nc generalizing fcs evs with
  | nil =>
    simp only [addOrCreateConf]
    cases List.lookup K fcs <;> simp
  | cons q rest ih =>
    obtain ⟨k, v⟩ := q
    by_cases hss : (List.lookup k fcs).isSome
    · rw [show addOrCreateConf fcs ((k, v) :: rest) evs fp =
          addOrCreateConf fcs rest evs fp by simp [addOrCreateConf, hss]]
      rw [ih]
      by_cases hk : k = K
      · subst hk
        rw [Option.isSome_iff_exists] at hss
        obtain ⟨x, hx⟩ := hss
        rw [hx]
      · rw [lookup_cons_eq, if_neg hk]
    · rw [show addOrCreateConf fcs ((k, v) :: rest) evs fp =
          addOrCreateConf (fcs ++ [(k, some ⟨fp, v⟩)]) rest
            (evs ++ [⟨ConfigMapConfigSourceConst, k, EventType.Create, v⟩]) fp by
          simp [addOrCreateConf, hss]]
      rw [ih]
      have hnone : List.lookup k fcs = none := Option.not_isSome_iff_eq_none.mp hss
      by_cases hk : k = K
      · subst hk
        simp [lookup_append_single, hnone, lookup_cons_eq, List.filter_append,
          List.filter_cons]
      · have hne : ((⟨ConfigMapConfigSourceConst, k, EventType.Create, v⟩ : Event V).Key == K)
            = false := beq_eq_false_iff_ne.mpr hk
        cases hKf : List.lookup K fcs with
        | some x =>
          simp [lookup_append_single, hKf, lookup_cons_eq, hk, List.filter_append,
            List.filter_cons, hne]
        | none =>
          simp [lookup_append_single, hKf, lookup_cons_eq, hk, List.filter_append,
            List.filter_cons, hne]

theorem addOrCreateConf_events (fcs : Store V) (nc : List (String × V))
    (evs : List (Event V)) (fp : String) :
    ∃ cs, (addOrCreateConf fcs nc evs fp).2 = evs ++ cs ∧
      ∀ e ∈ cs, e.EventType = EventType.Create ∧ List.lookup e.Key fcs = none ∧
        (List.lookup e.Key nc).isSome := by
  induction nc generalizing fcs evs with
  | nil => exact ⟨[], by simp [addOrCreateConf], by simp⟩
  | cons q rest ih =>
    obtain ⟨k, v⟩ := q
    by_cases hss : (List.lookup k fcs).isSome
    · rw [show addOrCreateConf fcs ((k, v) :: rest) evs fp =
          addOrCreateConf fcs rest evs fp by simp [addOrCreateConf, hss]]
      obtain ⟨cs, hcs, hmem⟩ := ih fcs evs
      refine ⟨cs, hcs, fun e he => ?_⟩
      obtain ⟨h1, h2, h3⟩ := hmem e he
      refine ⟨h1, h2, ?_⟩
      rw [lookup_cons_eq]
      by_cases hk : k = e.Key
      · simp [if_pos hk]
      · rw [if_neg hk]; exact h3
    · rw [show addOrCreateConf fcs ((k, v) :: rest) evs fp =
          addOrCreateConf (fcs ++ [(k, some ⟨fp, v⟩)]) rest
            (evs ++ [⟨ConfigMapConfigSourceConst, k, EventType.Create, v⟩]) fp by
          simp [addOrCreateConf, hss]]
      have hnone : List.lookup k fcs = none := Option.not_isSome_iff_eq_none.mp hss
      obtain ⟨cs, hcs, hmem⟩ := ih (fcs ++ [(k, some ⟨fp, v⟩)])
        (evs ++ [⟨ConfigMapConfigSourceConst, k, EventType.Create, v⟩])
      refine ⟨⟨ConfigMapConfigSourceConst, k, EventType.Create, v⟩ :: cs, by simpa using hcs,
        fun e he => ?_⟩
      rcases List.mem_cons.mp he with he | he
      · subst he
        refine ⟨rfl, hnone, ?_⟩
        rw [lookup_cons_eq, if_pos rfl]
        rfl
      · obtain ⟨h1, h2, h3⟩ := hmem e he
        rw [lookup_append_single] at h2
        refine ⟨h1, ?_, ?_⟩
        · cases hKf : List.lookup e.Key fcs with
          | none => rfl
          | some x => rw [hKf] at h2; simp at h2
        · rw [lookup_cons_eq]
          by_cases hk : k = e.Key
          · simp [if_pos hk]
          · rw [if_neg hk]; exact h3

theorem addOrCreateConf_nodup (fcs : Store V) (nc : List (String × V))
    (evs : List (Event V)) (fp : String) (hnd : (keys fcs).Nodup) :
    (keys (addOrCreateConf fcs nc evs fp).1).Nodup := by
  induction nc generalizing fcs evs with
  | nil => exact hnd
  | cons q rest ih =>
    obtain ⟨k, v⟩ := q
    by_cases hss : (List.lookup k fcs).isSome
    · rw [show addOrCreateConf fcs ((k, v) :: rest) evs fp =
          addOrCreateConf fcs rest evs fp by simp [addOrCreateConf, hss]]
      exact ih fcs evs hnd
    · rw [show addOrCreateConf fcs ((k, v) :: rest) evs fp =
          addOrCreateConf (fcs ++ [(k, some ⟨fp, v⟩)]) rest
            (evs ++ [⟨ConfigMapConfigSourceConst, k, EventType.Create, v⟩]) fp by
          simp [addOrCreateConf, hss]]
      apply ih
      have hnone : List.lookup k fcs = none := Option.not_isSome_iff_eq_none.mp hss
      have hkmem : k ∉ keys fcs := (lookup_none_iff _ _).mp hnone
      simp only [keys, List.map_append, List.map_cons, List.map_nil]
      rw [List.nodup_append]
      refine ⟨hnd, List.nodup_singleton _, ?_⟩
      intro a ha hb
      simp only [List.mem_singleton] at hb
      subst hb
      exact hkmem ha

theorem addOrCreateConf_allSome (fcs : Store V) (nc : List (String × V))
    (evs : List (Event V)) (fp : String) (hall : allSome fcs) :
    allSome (addOrCreateConf fcs nc evs fp).1 := by
  induction nc generalizing fcs evs with
  | nil => exact hall
  | cons q rest ih =>
    obtain ⟨k, v⟩ := q
    by_cases hss : (List.lookup k fcs).isSome
    · rw [show addOrCreateConf fcs ((k, v) :: rest) evs fp =
          addOrCreateConf fcs rest evs fp by simp [addOrCreateConf, hss]]
      exact ih fcs evs hall
    · rw [show addOrCreateConf fcs ((k, v) :: rest) evs fp =
          addOrCreateConf (fcs ++ [(k, some ⟨fp, v⟩)]) rest
            (evs ++ [⟨ConfigMapConfigSourceConst, k, EventType.Create, v⟩]) fp by
          simp [addOrCreateConf, hss]]
      apply ih
      intro p hp
      rcases List.mem_append.mp hp with hp | hp
      · exact hall p hp
      · simp only [List.mem_singleton] at hp
        subst hp
        rfl

theorem addOrCreateConf_covered (fcs : Store V) (nc : List (String × V))
    (evs : List (Event V)) (fp : String)
    (hcov : ∀ K, (List.lookup K nc).isSome → (List.lookup K fcs).isSome) :
    addOrCreateConf fcs nc evs fp = (fcs, evs) := by
  induction nc generalizing evs with
  | nil => rfl
  | cons q rest ih =>
    obtain ⟨k, v⟩ := q
    have hss : (List.lookup k fcs).isSome := by
      apply hcov
      rw [lookup_cons_eq, if_pos rfl]
      rfl
    rw [show addOrCreateConf fcs ((k, v) :: rest) evs fp =
        addOrCreateConf fcs rest evs fp by simp [addOrCreateConf, hss]]
    apply ih
    intro K hK
    apply hcov
    rw [lookup_cons_eq]
    by_cases hk : k = K
    · simp [if_pos hk]
    · rw [if_neg hk]; exact hK

theorem lookup_ne_some_none {st : Store V} {K : String} (hall : allSome st) :
    List.lookup K st ≠ some none := by
  intro h
  have hm := mem_of_lookup_eq_some h
  have := hall _ hm
  simp at this

theorem compareUpdate_spec (files : List file) (st : Store V) (nc : List (String × V))
    (fp : String) (hall : allSome st) (hnd : (keys st).Nodup)
    (hreg : lookupPriority files fp ≠ maxUInt32) :
    ∃ st' evs, compareUpdate files st nc fp = some (st', evs) ∧
      allSome st' ∧ (keys st').Nodup ∧
      (∀ K ci, List.lookup K st = some (some ci) →
        List.lookup K st' =
          ((mergeEntry files fp (lookupPriority files fp) nc K ci).1).map some ∧
        evs.filter (fun e => e.Key == K) =
          ((mergeEntry files fp (lookupPriority files fp) nc K ci).2).toList) ∧
      (∀ K, List.lookup K st = none →
        List.lookup K st' = (List.lookup K nc).map (fun v => some ⟨fp, v⟩) ∧
        evs.filter (fun e => e.Key == K) =
          (match List.lookup K nc with
           | some v => [⟨ConfigMapConfigSourceConst, K, EventType.Create, v⟩]
           | none => [])) ∧
      (∃ e1 e2, evs = e1 ++ e2 ∧
        (∀ e ∈ e1, (e.EventType = EventType.Update ∨ e.EventType = EventType.Delete) ∧
          e.Key ∈ keys st) ∧
        (∀ e ∈ e2, e.EventType = EventType.Create ∧ e.Key ∉ keys st)) := by
  have hcu : compareUpdate files st nc fp =
      some (addOrCreateConf (loopStore files fp (lookupPriority files fp) nc st) nc
        (loopEvents files fp (lookupPriority files fp) nc st) fp) := by
    unfold compareUpdate
    rw [if_neg hreg, compareUpdateLoop_eq files fp _ nc st hall]
  refine ⟨_, _, hcu, ?_, ?_, ?_, ?_, ?_⟩
  · exact addOrCreateConf_allSome _ _ _ _ (allSome_loopStore files fp _ nc st)
  · exact addOrCreateConf_nodup _ _ _ _ (nodup_keys_loopStore hnd)
  · intro K ci hK
    constructor
    · rw [addOrCreateConf_lookup]
      rw [lookup_loopStore files fp _ nc st hnd K, hK]
      cases hm : (mergeEntry files fp (lookupPriority files fp) nc K ci).1 with
      | some ci' => simp [hm]
      | none =>
        have hdrop := mergeEntry_drop hm
        simp [hm, hdrop.1]
    · rw [addOrCreateConf_filter]
      rw [filter_loopEvents files fp _ nc st hnd K]
      rw [lookup_loopStore files fp _ nc st hnd K, hK]
      cases hm : (mergeEntry files fp (lookupPriority files fp) nc K ci).1 with
      | some ci' => simp [hm]
      | none =>
        have hdrop := mergeEntry_drop hm
        simp [hm, hdrop.1]
  · intro K hK
    have hfcs : List.lookup K (loopStore files fp (lookupPriority files fp) nc st) = none := by
      rw [lookup_loopStore files fp _ nc st hnd K, hK]
    constructor
    · rw [addOrCreateConf_lookup, hfcs]
    · rw [addOrCreateConf_filter]
      rw [filter_loopEvents files fp _ nc st hnd K, hK, hfcs]
      simp
  · obtain ⟨cs, hcs, hmem⟩ := addOrCreateConf_events
      (loopStore files fp (lookupPriority files fp) nc st) nc
      (loopEvents files fp (lookupPriority files fp) nc st) fp
    refine ⟨_, cs, hcs, fun e he => ?_, fun e he => ?_⟩
    · have := mem_loopEvents he
      exact ⟨this.2, this.1⟩
    · obtain ⟨h1, h2, h3⟩ := hmem e he
      refine ⟨h1, fun hkey => ?_⟩
      rcases hlk : List.lookup e.Key st with _ | oci
      · exact (lookup_none_iff _ _).mp hlk hkey
      · cases oci with
        | none => exact lookup_ne_some_none hall hlk
        | some ci =>
          rw [lookup_loopStore files fp _ nc st hnd e.Key, hlk] at h2
          cases hm : (mergeEntry files fp (lookupPriority files fp) nc e.Key ci).1 with
          | some ci' => simp [hm] at h2
          | none =>
            have hdrop := mergeEntry_drop hm
            rw [hdrop.1] at h3
            simp at h3

theorem compareUpdate_unregistered (files : List file) (st : Store V)
    (nc : List (String × V)) (fp : String) (hreg : lookupPriority files fp = maxUInt32) :
    compareUpdate files st nc fp = some (st, []) := by
  unfold compareUpdate
  rw [if_pos hreg]

theorem lookupPriority_eq_default {files : List file} {fp : String}
    (h : ∀ f ∈ files, f.filePath ≠ fp) : lookupPriority files fp = maxUInt32 := by
  unfold lookupPriority
  induction files with
  | nil => rfl
  | cons f rest ih =>
    rw [List.foldl_cons, if_neg (h f (List.mem_cons_self _ _))]
    exact ih (fun g hg => h g (List.mem_cons_of_mem _ hg))

/-- Claim C8: a merge invoked with a source path that has no entry in the
files registry leaves the store unchanged and produces no events. -/
theorem unregistered_merge_noop (files : List file) (st : Store V)
    (nc : List (String × V)) (fp : String) (h : ∀ f ∈ files, f.filePath ≠ fp) :
    compareUpdate files st nc fp = some (st, []) :=
  compareUpdate_unregistered files st nc fp (lookupPriority_eq_default h)

/-- Witness for unregistered_merge_noop at a concrete input. -/
theorem unregistered_merge_noop_witness :
    (∀ f ∈ ([⟨"a", 1⟩] : List file), f.filePath ≠ "b") ∧
      compareUpdate [⟨"a", 1⟩] ([("K", some ⟨"a", (0 : Nat)⟩)] : Store Nat) [("x", 5)] "b"
        = some ([("K", some ⟨"a", (0 : Nat)⟩)], []) :=
  ⟨by decide, unregistered_merge_noop _ _ _ _ (by decide)⟩

/-- Claim C6: when the store holds an entry for K owned by source path S and
a merge for S arrives whose new mapping lacks K, the key is removed from the
store and the event list holds exactly one Delete event for K carrying the
prior value. -/
theorem deletion_emits_delete (files : List file) (st : Store V)
    (M : List (String × V)) (S K : String) (v : V)
    (hall : allSome st) (hnd : (keys st).Nodup)
    (hreg : lookupPriority files S ≠ maxUInt32)
    (hK : List.lookup K st = some (some ⟨S, v⟩))
    (habs : List.lookup K M = none) :
    ∃ st' evs, compareUpdate files st M S = some (st', evs) ∧
      List.lookup K st' = none ∧
      evs.filter (fun e => e.Key == K) =
        [⟨ConfigMapConfigSourceConst, K, EventType.Delete, v⟩] := by
  obtain ⟨st', evs, hcu, _, _, hin, _, _⟩ := compareUpdate_spec files st M S hall hnd hreg
  obtain ⟨h1, h2⟩ := hin K ⟨S, v⟩ hK
  have hme : mergeEntry files S (lookupPriority files S) M K ⟨S, v⟩ =
      (none, some ⟨ConfigMapConfigSourceConst, K, EventType.Delete, v⟩) := by
    unfold mergeEntry
    simp [habs]
  refine ⟨st', evs, hcu, ?_, ?_⟩
  · rw [h1, hme]
    rfl
  · rw [h2, hme]
    rfl

/-- Witness for deletion_emits_delete at a concrete input. -/
theorem deletion_emits_delete_witness :
    allSome ([("K", some ⟨"a", (7 : Nat)⟩)] : Store Nat) ∧
    (keys ([("K", some ⟨"a", (7 : Nat)⟩)] : Store Nat)).Nodup ∧
    lookupPriority [⟨"a", 1⟩] "a" ≠ maxUInt32 ∧
    List.lookup "K" ([("K", some ⟨"a", (7 : Nat)⟩)] : Store Nat) = some (some ⟨"a", 7⟩) ∧
    List.lookup "K" ([] : List (String × Nat)) = none ∧
    (∃ st' evs, compareUpdate [⟨"a", 1⟩] ([("K", some ⟨"a", (7 : Nat)⟩)] : Store Nat) [] "a"
        = some (st', evs) ∧
      List.lookup "K" st' = none ∧
      evs.filter (fun e => e.Key == "K") =
        [⟨ConfigMapConfigSourceConst, "K", EventType.Delete, 7⟩]) :=
  ⟨by decide, by decide, by decide, by decide, by decide,
    deletion_emits_delete _ _ _ _ _ _ (by decide) (by decide) (by decide) (by decide) (by decide)⟩

/-- Counterexample to claim C2: with sources a and b of equal priority, a
merge for a over an entry owned by b replaces the value silently but does
NOT re-attribute the owning path to a: the entry stays owned by b. -/
theorem equal_priority_reattribution_cex :
    compareUpdate [⟨"a", 1⟩, ⟨"b", 1⟩] ([("K", some ⟨"b", (0 : Nat)⟩)] : Store Nat)
        [("K", 7)] "a"
      = some ([("K", some ⟨"b", 7⟩)], []) ∧ ("b" : String) ≠ "a" := by decide

/-- Claim C2 (amended): on an equal-priority collision the incoming merge
replaces the entry's value with the new one and emits no event for that key,
but the owning path remains the previous owner's path (it is not
re-attributed to the merging source). -/
theorem equal_priority_tie_amended (files : List file) (st : Store V)
    (M : List (String × V)) (S K : String) (ci : ConfigInfo V) (vNew : V)
    (hall : allSome st) (hnd : (keys st).Nodup)
    (hreg : lookupPriority files S ≠ maxUInt32)
    (hK : List.lookup K st = some (some ci))
    (hT : ci.FilePath ≠ S)
    (hQ : lookupPriority files ci.FilePath = lookupPriority files S)
    (hM : List.lookup K M = some vNew) :
    ∃ st' evs, compareUpdate files st M S = some (st', evs) ∧
      List.lookup K st' = some (some ⟨ci.FilePath, vNew⟩) ∧
      evs.filter (fun e => e.Key == K) = [] := by
  obtain ⟨st', evs, hcu, _, _, hin, _, _⟩ := compareUpdate_spec files st M S hall hnd hreg
  obtain ⟨h1, h2⟩ := hin K ci hK
  have hme : mergeEntry files S (lookupPriority files S) M K ci =
      (some ⟨ci.FilePath, vNew⟩, none) := by
    unfold mergeEntry
    simp [hT, hM, hQ]
  refine ⟨st', evs, hcu, ?_, ?_⟩
  · rw [h1, hme]
    rfl
  · rw [h2, hme]
    rfl

/-- Witness for equal_priority_tie_amended at a concrete input. -/
theorem equal_priority_tie_amended_witness :
    allSome ([("K", some ⟨"b", (0 : Nat)⟩)] : Store Nat) ∧
    (keys ([("K", some ⟨"b", (0 : Nat)⟩)] : Store Nat)).Nodup ∧
    lookupPriority [⟨"a", 1⟩, ⟨"b", 1⟩] "a" ≠ maxUInt32 ∧
    List.lookup "K" ([("K", some ⟨"b", (0 : Nat)⟩)] : Store Nat)
      = some (some ⟨"b", 0⟩) ∧
    (⟨"b", (0 : Nat)⟩ : ConfigInfo Nat).FilePath ≠ "a" ∧
    lookupPriority [⟨"a", 1⟩, ⟨"b", 1⟩] (⟨"b", (0 : Nat)⟩ : ConfigInfo Nat).FilePath
      = lookupPriority [⟨"a", 1⟩, ⟨"b", 1⟩] "a" ∧
    List.lookup "K" [("K", (7 : Nat))] = some 7 ∧
    (∃ st' evs, compareUpdate [⟨"a", 1⟩, ⟨"b", 1⟩]
        ([("K", some ⟨"b", (0 : Nat)⟩)] : Store Nat) [("K", 7)] "a" = some (st', evs) ∧
      List.lookup "K" st'
        = some (some ⟨(⟨"b", (0 : Nat)⟩ : ConfigInfo Nat).FilePath, 7⟩) ∧
      evs.filter (fun e => e.Key == "K") = []) :=
  ⟨by decide, by decide, by decide, by decide, by decide, by decide, by decide,
    equal_priority_tie_amended _ _ _ _ _ _ _ (by decide) (by decide) (by decide)
      (by decide) (by decide) (by decide) (by decide)⟩

/-- Counterexample to claim C3: the higher-priority merge for high.conf
replaces the value of y and emits one Update, but ownership of the entry is
NOT transferred: the entry remains owned by low.conf. -/
theorem higher_priority_win_cex :
    compareUpdate [⟨"low", 10⟩, ⟨"high", 1⟩]
        ([("y", some ⟨"low", "a"⟩)] : Store String) [("y", "b")] "high"
      = some ([("y", some ⟨"low", "b"⟩)],
          [⟨ConfigMapConfigSourceConst, "y", EventType.Update, "b"⟩]) ∧
      ("low" : String) ≠ "high" := by decide

/-- Claim C3 (amended): when a merge for source path S of strictly smaller
priority value meets an entry for K owned by a different source of strictly
larger priority value, and S's mapping defines K, the entry's value is
replaced and exactly one Update event for K with the new value is emitted;
ownership of the entry, however, stays with the previous owner (the
FilePath field is not changed to S). -/
theorem higher_priority_win_amended (files : List file) (st : Store V)
    (M : List (String × V)) (S K : String) (ci : ConfigInfo V) (vNew : V)
    (hall : allSome st) (hnd : (keys st).Nodup)
    (hreg : lookupPriority files S ≠ maxUInt32)
    (hK : List.lookup K st = some (some ci))
    (hT : ci.FilePath ≠ S)
    (hlt : lookupPriority files S < lookupPriority files ci.FilePath)
    (hM : List.lookup K M = some vNew) :
    ∃ st' evs, compareUpdate files st M S = some (st', evs) ∧
      List.lookup K st' = some (some ⟨ci.FilePath, vNew⟩) ∧
      evs.filter (fun e => e.Key == K) =
        [⟨ConfigMapConfigSourceConst, K, EventType.Update, vNew⟩] := by
  obtain ⟨st', evs, hcu, _, _, hin, _, _⟩ := compareUpdate_spec files st M S hall hnd hreg
  obtain ⟨h1, h2⟩ := hin K ci hK
  have hQne : lookupPriority files ci.FilePath ≠ lookupPriority files S :=
    fun h => absurd (h ▸ hlt) (lt_irrefl _)
  have hme : mergeEntry files S (lookupPriority files S) M K ci =
      (some ⟨ci.FilePath, vNew⟩,
        some ⟨ConfigMapConfigSourceConst, K, EventType.Update, vNew⟩) := by
    unfold mergeEntry
    simp [hT, hM, hQne, hlt]
  refine ⟨st', evs, hcu, ?_, ?_⟩
  · rw [h1, hme]
    rfl
  · rw [h2, hme]
    rfl

/-- Witness for higher_priority_win_amended at a concrete input. -/
theorem higher_priority_win_amended_witness :
    allSome ([("y", some ⟨"low", "a"⟩)] : Store String) ∧
    (keys ([("y", some ⟨"low", "a"⟩)] : Store String)).Nodup ∧
    lookupPriority [⟨"low", 10⟩, ⟨"high", 1⟩] "high" ≠ maxUInt32 ∧
    List.lookup "y" ([("y", some ⟨"low", "a"⟩)] : Store String)
      = some (some ⟨"low", "a"⟩) ∧
    (⟨"low", "a"⟩ : ConfigInfo String).FilePath ≠ "high" ∧
    lookupPriority [⟨"low", 10⟩, ⟨"high", 1⟩] "high"
      < lookupPriority [⟨"low", 10⟩, ⟨"high", 1⟩] (⟨"low", "a"⟩ : ConfigInfo String).FilePath ∧
    List.lookup "y" [("y", "b")] = some "b" ∧
    (∃ st' evs, compareUpdate [⟨"low", 10⟩, ⟨"high", 1⟩]
        ([("y", some ⟨"low", "a"⟩)] : Store String) [("y", "b")] "high" = some (st', evs) ∧
      List.lookup "y" st'
        = some (some ⟨(⟨"low", "a"⟩ : ConfigInfo String).FilePath, "b"⟩) ∧
      evs.filter (fun e => e.Key == "y") =
        [⟨ConfigMapConfigSourceConst, "y", EventType.Update, "b"⟩]) :=
  ⟨by decide, by decide, by decide, by decide, by decide, by decide, by decide,
    higher_priority_win_amended _ _ _ _ _ _ _ (by decide) (by decide) (by decide)
      (by decide) (by decide) (by decide) (by decide)⟩

/-- Claim C9: in the event list of a single merge, every key appears in at
most one event, and the list splits into Update/Delete events for
pre-existing keys followed by Create events for keys new in this merge. -/
theorem event_batch_consistency (files : List file) (st : Store V)
    (nc : List (String × V)) (fp : String)
    (hall : allSome st) (hnd : (keys st).Nodup) :
    ∃ st' evs, compareUpdate files st nc fp = some (st', evs) ∧
      (∀ K, (evs.filter (fun e => e.Key == K)).length ≤ 1) ∧
      ∃ e1 e2, evs = e1 ++ e2 ∧
        (∀ e ∈ e1, (e.EventType = EventType.Update ∨ e.EventType = EventType.Delete) ∧
          e.Key ∈ keys st) ∧
        (∀ e ∈ e2, e.EventType = EventType.Create ∧ e.Key ∉ keys st) := by
  by_cases hreg : lookupPriority files fp = maxUInt32
  · exact ⟨st, [], compareUpdate_unregistered files st nc fp hreg, fun K => by simp,
      [], [], by simp, by simp, by simp⟩
  · obtain ⟨st', evs, hcu, _, _, hin, hout, hsplit⟩ :=
      compareUpdate_spec files st nc fp hall hnd hreg
    refine ⟨st', evs, hcu, ?_, hsplit⟩
    intro K
    rcases hlk : List.lookup K st with _ | oci
    · obtain ⟨_, h2⟩ := hout K hlk
      rw [h2]
      cases List.lookup K nc <;> simp
    · cases oci with
      | none => exact absurd hlk (lookup_ne_some_none hall)
      | some ci =>
        obtain ⟨_, h2⟩ := hin K ci hlk
        rw [h2]
        cases (mergeEntry files fp (lookupPriority files fp) nc K ci).2 <;> simp

/-- Witness for event_batch_consistency at a concrete input. -/
theorem event_batch_consistency_witness :
    allSome ([("K", some ⟨"a", (1 : Nat)⟩)] : Store Nat) ∧
    (keys ([("K", some ⟨"a", (1 : Nat)⟩)] : Store Nat)).Nodup ∧
    (∃ st' evs, compareUpdate [⟨"a", 2⟩, ⟨"b", 1⟩]
        ([("K", some ⟨"a", (1 : Nat)⟩)] : Store Nat) [("K", 9), ("x", 3)] "b"
        = some (st', evs) ∧
      (∀ K, (evs.filter (fun e => e.Key == K)).length ≤ 1) ∧
      ∃ e1 e2, evs = e1 ++ e2 ∧
        (∀ e ∈ e1, (e.EventType = EventType.Update ∨ e.EventType = EventType.Delete) ∧
          e.Key ∈ keys ([("K", some ⟨"a", (1 : Nat)⟩)] : Store Nat)) ∧
        (∀ e ∈ e2, e.EventType = EventType.Create ∧
          e.Key ∉ keys ([("K", some ⟨"a", (1 : Nat)⟩)] : Store Nat))) :=
  ⟨by decide, by decide,
    event_batch_consistency _ _ _ _ (by decide) (by decide)⟩

/-- Claim C1: for two registered sources pathA and pathB, pathA's priority
value strictly smaller (hence higher-priority), both of whose mappings
define K, merging the two mappings from the empty store in either order
leaves the store mapping K to pathA's value. -/
theorem priority_precedence (files : List file) (mA mB : List (String × V))
    (pathA pathB K : String) (vA : V)
    (hAB : lookupPriority files pathA < lookupPriority files pathB)
    (hAmax : lookupPriority files pathA ≠ maxUInt32)
    (hKA : List.lookup K mA = some vA)
    (hKB : (List.lookup K mB).isSome) :
    (∃ st1 e1 st2 e2, compareUpdate files ([] : Store V) mA pathA = some (st1, e1) ∧
      compareUpdate files st1 mB pathB = some (st2, e2) ∧
      ∃ ci, List.lookup K st2 = some (some ci) ∧ ci.Value = vA) ∧
    (∃ st1 e1 st2 e2, compareUpdate files ([] : Store V) mB pathB = some (st1, e1) ∧
      compareUpdate files st1 mA pathA = some (st2, e2) ∧
      ∃ ci, List.lookup K st2 = some (some ci) ∧ ci.Value = vA) := by
  have hABne : pathA ≠ pathB := by
    intro h
    rw [h] at hAB
    exact lt_irrefl _ hAB
  have hallnil : allSome ([] : Store V) := by intro p hp; simp at hp
  have hndnil : (keys ([] : Store V)).Nodup := by simp [keys]
  constructor
  · -- merge A first, then B
    obtain ⟨st1, e1, hcu1, hall1, hnd1, _, hout1, _⟩ :=
      compareUpdate_spec files ([] : Store V) mA pathA hallnil hndnil hAmax
    have hK1 : List.lookup K st1 = some (some ⟨pathA, vA⟩) := by
      have h := (hout1 K rfl).1
      rw [hKA] at h
      simpa using h
    by_cases hBmax : lookupPriority files pathB = maxUInt32
    · exact ⟨st1, e1, st1, [], hcu1,
        compareUpdate_unregistered files st1 mB pathB hBmax,
        ⟨pathA, vA⟩, hK1, rfl⟩
    · obtain ⟨st2, e2, hcu2, _, _, hin2, _, _⟩ :=
        compareUpdate_spec files st1 mB pathB hall1 hnd1 hBmax
      refine ⟨st1, e1, st2, e2, hcu1, hcu2, ⟨pathA, vA⟩, ?_, rfl⟩
      obtain ⟨vb, hvb⟩ := Option.isSome_iff_exists.mp hKB
      have h1 := (hin2 K ⟨pathA, vA⟩ hK1).1
      have hme : mergeEntry files pathB (lookupPriority files pathB) mB K ⟨pathA, vA⟩ =
          (some ⟨pathA, vA⟩, none) := by
        unfold mergeEntry
        have hne2 : lookupPriority files pathA ≠ lookupPriority files pathB := by
          intro h
          rw [h] at hAB
          exact lt_irrefl _ hAB
        have hnlt : ¬ lookupPriority files pathB < lookupPriority files pathA :=
          fun h => absurd (lt_trans hAB h) (lt_irrefl _)
        simp [hABne, hvb, hne2, hnlt]
      rw [h1, hme]
      rfl
  · -- merge B first, then A
    by_cases hBmax : lookupPriority files pathB = maxUInt32
    · obtain ⟨st2, e2, hcu2, _, _, _, hout2, _⟩ :=
        compareUpdate_spec files ([] : Store V) mA pathA hallnil hndnil hAmax
      refine ⟨[], [], st2, e2,
        compareUpdate_unregistered files ([] : Store V) mB pathB hBmax,
        hcu2, ⟨pathA, vA⟩, ?_, rfl⟩
      have h := (hout2 K rfl).1
      rw [hKA] at h
      simpa using h
    · obtain ⟨st1, e1, hcu1, hall1, hnd1, _, hout1, _⟩ :=
        compareUpdate_spec files ([] : Store V) mB pathB hallnil hndnil hBmax
      obtain ⟨vb, hvb⟩ := Option.isSome_iff_exists.mp hKB
      have hK1 : List.lookup K st1 = some (some ⟨pathB, vb⟩) := by
        have h := (hout1 K rfl).1
        rw [hvb] at h
        simpa using h
      obtain ⟨st2, e2, hcu2, _, _, hin2, _, _⟩ :=
        compareUpdate_spec files st1 mA pathA hall1 hnd1 hAmax
      refine ⟨st1, e1, st2, e2, hcu1, hcu2, ⟨pathB, vA⟩, ?_, rfl⟩
      have h1 := (hin2 K ⟨pathB, vb⟩ hK1).1
      have hme : mergeEntry files pathA (lookupPriority files pathA) mA K ⟨pathB, vb⟩ =
          (some ⟨pathB, vA⟩, some ⟨ConfigMapConfigSourceConst, K, EventType.Update, vA⟩) := by
        unfold mergeEntry
        have hne2 : lookupPriority files pathB ≠ lookupPriority files pathA := by
          intro h
          rw [h] at hAB
          exact lt_irrefl _ hAB
        simp [Ne.symm hABne, hKA, hne2, hAB]
      rw [h1, hme]
      rfl

/-- Witness for priority_precedence at a concrete input. -/
theorem priority_precedence_witness :
    lookupPriority [⟨"a", 1⟩, ⟨"b", 2⟩] "a" < lookupPriority [⟨"a", 1⟩, ⟨"b", 2⟩] "b" ∧
    lookupPriority [⟨"a", 1⟩, ⟨"b", 2⟩] "a" ≠ maxUInt32 ∧
    List.lookup "K" [("K", (10 : Nat))] = some 10 ∧
    (List.lookup "K" [("K", (20 : Nat))]).isSome ∧
    ((∃ st1 e1 st2 e2, compareUpdate [⟨"a", 1⟩, ⟨"b", 2⟩] ([] : Store Nat)
        [("K", 10)] "a" = some (st1, e1) ∧
      compareUpdate [⟨"a", 1⟩, ⟨"b", 2⟩] st1 [("K", 20)] "b" = some (st2, e2) ∧
      ∃ ci, List.lookup "K" st2 = some (some ci) ∧ ci.Value = 10) ∧
    (∃ st1 e1 st2 e2, compareUpdate [⟨"a", 1⟩, ⟨"b", 2⟩] ([] : Store Nat)
        [("K", 20)] "b" = some (st1, e1) ∧
      compareUpdate [⟨"a", 1⟩, ⟨"b", 2⟩] st1 [("K", 10)] "a" = some (st2, e2) ∧
      ∃ ci, List.lookup "K" st2 = some (some ci) ∧ ci.Value = 10)) :=
  ⟨by decide, by decide, by decide, by decide,
    priority_precedence _ _ _ _ _ _ _ (by decide) (by decide) (by decide) (by decide)⟩

theorem handlePriorityLoop_nomatch {p : String} {pr : Nat} {files : List file}
    (h : ∀ f ∈ files, ¬(f.filePath = p ∧ f.priority = pr)) :
    handlePriorityLoop p pr files = (files, false) := by
  induction files with
  | nil => rfl
  | cons f rest ih =>
    unfold handlePriorityLoop
    rw [ih (fun g hg => h g (List.mem_cons_of_mem _ hg))]
    have hf := h f (List.mem_cons_self _ _)
    simp [hf]

theorem handlePriorityLoop_length (p : String) (pr : Nat) (files : List file) :
    files.length ≤ (handlePriorityLoop p pr files).1.length := by
  induction files with
  | nil => simp [handlePriorityLoop]
  | cons f rest ih =>
    unfold handlePriorityLoop
    by_cases h : f.filePath = p ∧ f.priority = pr
    · simp only [if_pos h]
      simp only [List.length_cons]
      omega
    · simp only [if_neg h]
      simp only [List.length_cons]
      omega

theorem handlePriorityLoop_set_length {p : String} {pr : Nat} {files : List file}
    (h : (handlePriorityLoop p pr files).2 = true) :
    files.length < (handlePriorityLoop p pr files).1.length := by
  induction files with
  | nil => simp [handlePriorityLoop] at h
  | cons f rest ih =>
    unfold handlePriorityLoop at h ⊢
    by_cases hf : f.filePath = p ∧ f.priority = pr
    · simp only [if_pos hf]
      have := handlePriorityLoop_length p pr rest
      simp only [List.length_cons]
      omega
    · simp only [if_neg hf] at h ⊢
      have := ih h
      simp only [List.length_cons]
      omega

/-- Counterexample to claim C4: registering an already-registered path does
not replace its priority in place; the registry gains a duplicate entry for
the path, both with the same priority and with a different one. -/
theorem registry_unique_cex :
    handlePriority [] "a" 1 = [⟨"a", 1⟩] ∧
    handlePriority [⟨"a", 1⟩] "a" 1 = [⟨"a", 1⟩, ⟨"a", 1⟩] ∧
    handlePriority [⟨"a", 1⟩] "a" 2 = [⟨"a", 1⟩, ⟨"a", 2⟩] := by decide

/-- Claim C4 (amended): handlePriority never errors (it is a total function)
and never replaces in place: every call strictly grows the registry, so
re-registering a path duplicates it rather than updating it.  When no
existing entry matches both the path and the priority, the new entry is
appended at the end, and the path's effective (last-occurrence) priority
becomes the newly registered one. -/
theorem registry_append_amended (files : List file) (p : String) (pr : Nat) :
    files.length < (handlePriority files p pr).length ∧
    ((∀ f ∈ files, ¬(f.filePath = p ∧ f.priority = pr)) →
      handlePriority files p pr = files ++ [⟨p, pr⟩] ∧
      lookupPriority (handlePriority files p pr) p = pr) := by
  constructor
  · rcases hlp : handlePriorityLoop p pr files with ⟨nfp, pset⟩
    have h1 : handlePriority files p pr = if ¬ pset then nfp ++ [⟨p, pr⟩] else nfp := by
      unfold handlePriority
      rw [hlp]
    cases pset with
    | true =>
      have hlen : files.length < nfp.length := by
        have h2 : (handlePriorityLoop p pr files).2 = true := by rw [hlp]
        have := handlePriorityLoop_set_length h2
        rw [hlp] at this
        exact this
      rw [h1]
      simpa using hlen
    | false =>
      have hlen : files.length ≤ nfp.length := by
        have := handlePriorityLoop_length p pr files
        rw [hlp] at this
        exact this
      rw [h1, if_pos (by simp)]
      simp only [List.length_append, List.length_cons, List.length_nil]
      omega
  · intro h
    have hloop := handlePriorityLoop_nomatch h
    have heq : handlePriority files p pr = files ++ [⟨p, pr⟩] := by
      unfold handlePriority
      rw [hloop]
      simp
    refine ⟨heq, ?_⟩
    rw [heq]
    unfold lookupPriority
    rw [List.foldl_append]
    simp

/-- Witness for registry_append_amended at a concrete input. -/
theorem registry_append_amended_witness :
    (∀ f ∈ ([⟨"b", 3⟩] : List file), ¬(f.filePath = "a" ∧ f.priority = 5)) ∧
    (([⟨"b", 3⟩] : List file).length < (handlePriority [⟨"b", 3⟩] "a" 5).length ∧
      ((∀ f ∈ ([⟨"b", 3⟩] : List file), ¬(f.filePath = "a" ∧ f.priority = 5)) →
        handlePriority [⟨"b", 3⟩] "a" 5 = [⟨"b", 3⟩] ++ [⟨"a", 5⟩] ∧
        lookupPriority (handlePriority [⟨"b", 3⟩] "a" 5) "a" = 5)) :=
  ⟨by decide, registry_append_amended [⟨"b", 3⟩] "a" 5⟩

/-- Claim C5 evaluated on the code: a directory walk meeting an unsupported
node aborts at that node (the later regular file is neither merged nor
registered), keeps the earlier file's merge in the store, and the walk
produces an UnsupportedType error — but AddFile drops that error (the
err = filepath.Walk(...) result is followed by return nil) and returns nil. -/
theorem addfile_unsupported_error_dropped :
    walkItems 5 (⟨[], []⟩ : CMState Nat)
        [WalkItem.regular "/d/a.conf" [("x", 1)], WalkItem.special "/d/s.sock",
         WalkItem.regular "/d/b.conf" [("y", 2)]]
      = some (⟨[⟨"/d/a.conf", 5⟩], [("x", some ⟨"/d/a.conf", 1⟩)]⟩,
          some "file type of [/d/s.sock] not supported") ∧
    AddFile (⟨[], []⟩ : CMState Nat) "/d"
        [WalkItem.regular "/d/a.conf" [("x", 1)], WalkItem.special "/d/s.sock",
         WalkItem.regular "/d/b.conf" [("y", 2)]] 5
      = some (⟨[⟨"/d/a.conf", 5⟩], [("x", some ⟨"/d/a.conf", 1⟩)]⟩, none) := by decide

theorem getByKey_found {st : Store V} (hall : allSome st) {K : String}
    {ci : ConfigInfo V} (h : List.lookup K st = some (some ci)) :
    GetConfigurationByKey st K = some (Except.ok ci.Value) := by
  induction st with
  | nil => simp [List.lookup] at h
  | cons p rest ih =>
    obtain ⟨k, oci⟩ := p
    have hs : oci.isSome := hall (k, oci) (List.mem_cons_self _ _)
    rw [Option.isSome_iff_exists] at hs
    obtain ⟨ci0, rfl⟩ := hs
    rw [lookup_cons_eq] at h
    by_cases hk : k = K
    · rw [if_pos hk] at h
      injection h with h
      injection h with h
      unfold GetConfigurationByKey
      rw [if_pos hk, h]
    · rw [if_neg hk] at h
      unfold GetConfigurationByKey
      rw [if_neg hk]
      exact ih (allSome_cons_elim hall) h

theorem getByKey_missing {st : Store V} (hall : allSome st) {K : String}
    (h : List.lookup K st = none) :
    GetConfigurationByKey st K = some (Except.error "key does not exist") := by
  induction st with
  | nil => rfl
  | cons p rest ih =>
    obtain ⟨k, oci⟩ := p
    have hs : oci.isSome := hall (k, oci) (List.mem_cons_self _ _)
    rw [Option.isSome_iff_exists] at hs
    obtain ⟨ci0, rfl⟩ := hs
    rw [lookup_cons_eq] at h
    by_cases hk : k = K
    · rw [if_pos hk] at h
      simp at h
    · rw [if_neg hk] at h
      unfold GetConfigurationByKey
      rw [if_neg hk]
      exact ih (allSome_cons_elim hall) h

theorem mergeList_inv (files : List file) :
    ∀ (ops : List (List (String × V) × String)) (st : Store V),
      allSome st → (keys st).Nodup →
      ∃ st', mergeList files st ops = some st' ∧ allSome st' ∧ (keys st').Nodup := by
  intro ops
  induction ops with
  | nil => exact fun st hall hnd => ⟨st, rfl, hall, hnd⟩
  | cons op rest ih =>
    intro st hall hnd
    obtain ⟨nc, fp⟩ := op
    by_cases hreg : lookupPriority files fp = maxUInt32
    · obtain ⟨st', hml, hall', hnd'⟩ := ih st hall hnd
      refine ⟨st', ?_, hall', hnd'⟩
      unfold mergeList
      rw [compareUpdate_unregistered files st nc fp hreg]
      exact hml
    · obtain ⟨st1, evs, hcu, hall1, hnd1, _, _, _⟩ :=
        compareUpdate_spec files st nc fp hall hnd hreg
      obtain ⟨st', hml, hall', hnd'⟩ := ih st1 hall1 hnd1
      refine ⟨st', ?_, hall', hnd'⟩
      unfold mergeList
      rw [hcu]
      exact hml

/-- Claim C10: a store built only by merges from the empty store contains no
nil pointers, so no merge in the sequence panics (the confInfo == nil
branches are unreachable), and GetConfigurationByKey on the resulting store
never panics: it returns the stored value when the key exists and the
"key does not exist" error when it does not. -/
theorem merge_store_non_nil_safe (files : List file)
    (ops : List (List (String × V) × String)) :
    ∃ st, mergeList files ([] : Store V) ops = some st ∧ allSome st ∧
      (∀ K ci, List.lookup K st = some (some ci) →
        GetConfigurationByKey st K = some (Except.ok ci.Value)) ∧
      (∀ K, List.lookup K st = none →
        GetConfigurationByKey st K = some (Except.error "key does not exist")) := by
  obtain ⟨st, hml, hall, hnd⟩ := mergeList_inv files ops ([] : Store V)
    (by intro p hp; simp at hp) (by simp [keys])
  exact ⟨st, hml, hall, fun K ci h => getByKey_found hall h,
    fun K h => getByKey_missing hall h⟩

/-- Witness for merge_store_non_nil_safe at a concrete input. -/
theorem merge_store_non_nil_safe_witness :
    ∃ st, mergeList [⟨"a", 1⟩] ([] : Store Nat) [([("x", 3)], "a"), ([], "a")] = some st ∧
      allSome st ∧
      (∀ K ci, List.lookup K st = some (some ci) →
        GetConfigurationByKey st K = some (Except.ok ci.Value)) ∧
      (∀ K, List.lookup K st = none →
        GetConfigurationByKey st K = some (Except.error "key does not exist")) :=
  merge_store_non_nil_safe _ _

theorem configinfo_update_self (ci : ConfigInfo V) (v : V) (h : ci.Value = v) :
    ({ ci with Value := v } : ConfigInfo V) = ci := by
  cases ci
  cases h
  rfl

/-- Counterexample to claim C7: after the store holds K owned by b
(priority 2), merging the mapping K=5 for a (priority 1) twice in a row
emits an Update event on the second, identical call as well: the second
merge's event list is not empty.  All three stores are reachable in
sequence from the empty store. -/
theorem merge_idempotence_cex :
    compareUpdate [⟨"b", 2⟩, ⟨"a", 1⟩] ([] : Store Nat) [("K", 0)] "b"
      = some ([("K", some ⟨"b", 0⟩)],
          [⟨ConfigMapConfigSourceConst, "K", EventType.Create, 0⟩]) ∧
    compareUpdate [⟨"b", 2⟩, ⟨"a", 1⟩] ([("K", some ⟨"b", (0 : Nat)⟩)] : Store Nat)
        [("K", 5)] "a"
      = some ([("K", some ⟨"b", 5⟩)],
          [⟨ConfigMapConfigSourceConst, "K", EventType.Update, 5⟩]) ∧
    compareUpdate [⟨"b", 2⟩, ⟨"a", 1⟩] ([("K", some ⟨"b", (5 : Nat)⟩)] : Store Nat)
        [("K", 5)] "a"
      = some ([("K", some ⟨"b", 5⟩)],
          [⟨ConfigMapConfigSourceConst, "K", EventType.Update, 5⟩]) := by decide

/-- Claim C7 (amended): merging the same mapping M for the same source S
twice in a row leaves the store's key-to-value mapping unchanged, and the
second merge's event list is empty PROVIDED no key of M is held by an entry
owned by a different source of strictly larger priority value; for such
keys the second merge re-emits an Update event each time, because the
first merge does not transfer ownership and the lower-priority branch does
not compare values before emitting. -/
theorem merge_idempotence_amended (files : List file) (st0 : Store V)
    (M : List (String × V)) (S : String)
    (hall : allSome st0) (hnd : (keys st0).Nodup) :
    ∃ st1 e1, compareUpdate files st0 M S = some (st1, e1) ∧
    ∃ st2 e2, compareUpdate files st1 M S = some (st2, e2) ∧
      (∀ K, List.lookup K st2 = List.lookup K st1) ∧
      ((∀ K ci, List.lookup K st0 = some (some ci) → ci.FilePath ≠ S →
          (List.lookup K M).isSome →
          lookupPriority files ci.FilePath ≤ lookupPriority files S) → e2 = []) := by
  by_cases hreg : lookupPriority files S = maxUInt32
  · exact ⟨st0, [], compareUpdate_unregistered files st0 M S hreg,
      st0, [], compareUpdate_unregistered files st0 M S hreg,
      fun K => rfl, fun _ => rfl⟩
  obtain ⟨st1, e1, hcu1, hall1, hnd1, hin1, hout1, _⟩ :=
    compareUpdate_spec files st0 M S hall hnd hreg
  obtain ⟨st2, e2, hcu2, hall2, hnd2, hin2, hout2, _⟩ :=
    compareUpdate_spec files st1 M S hall1 hnd1 hreg
  have hcov : ∀ K, (List.lookup K M).isSome → (List.lookup K st1).isSome := by
    intro K hKM
    rw [Option.isSome_iff_exists] at hKM
    obtain ⟨v, hv⟩ := hKM
    rcases hlk0 : List.lookup K st0 with _ | oci
    · have h := (hout1 K hlk0).1
      rw [h, hv]
      rfl
    · cases oci with
      | none => exact absurd hlk0 (lookup_ne_some_none hall)
      | some ci0 =>
        have h := (hin1 K ci0 hlk0).1
        rw [h]
        cases hm : (mergeEntry files S (lookupPriority files S) M K ci0).1 with
        | some ci' => rfl
        | none =>
          have hdrop := mergeEntry_drop hm
          rw [hdrop.1] at hv
          exact absurd hv (by simp)
  have hB : ∀ K ci1, List.lookup K st1 = some (some ci1) →
      (mergeEntry files S (lookupPriority files S) M K ci1).1 = some ci1 ∧
      ((mergeEntry files S (lookupPriority files S) M K ci1).2 = none ∨
        (ci1.FilePath ≠ S ∧ (List.lookup K M).isSome ∧
          lookupPriority files S < lookupPriority files ci1.FilePath ∧
          ∃ ci0, List.lookup K st0 = some (some ci0) ∧ ci0.FilePath = ci1.FilePath)) := by
    intro K ci1 hlk1
    rcases hlk0 : List.lookup K st0 with _ | oci
    · have h := (hout1 K hlk0).1
      rw [hlk1] at h
      cases hv : List.lookup K M with
      | none => rw [hv] at h; simp at h
      | some v =>
        rw [hv] at h
        simp only [Option.map_some', Option.some.injEq] at h
        subst h
        constructor
        · unfold mergeEntry; simp [hv]
        · left; unfold mergeEntry; simp [hv]
    · cases oci with
      | none => exact absurd hlk0 (lookup_ne_some_none hall)
      | some ci0 =>
        have h := (hin1 K ci0 hlk0).1
        rw [hlk1] at h
        cases hm : (mergeEntry files S (lookupPriority files S) M K ci0).1 with
        | none => rw [hm] at h; simp at h
        | some ci' =>
          rw [hm] at h
          simp only [Option.map_some', Option.some.injEq] at h
          subst h
          by_cases hfp0 : ci0.FilePath = S
          · cases hv : List.lookup K M with
            | none =>
              have hdrop : (mergeEntry files S (lookupPriority files S) M K ci0).1 = none := by
                unfold mergeEntry; simp [hfp0, hv]
              rw [hdrop] at hm
              exact absurd hm (by simp)
            | some v =>
              have hci1 : ci1.FilePath = S ∧ ci1.Value = v := by
                by_cases hvv : ci0.Value = v
                · have he : (mergeEntry files S (lookupPriority files S) M K ci0).1
                      = some ci0 := by
                    unfold mergeEntry; simp [hfp0, hv, hvv]
                  rw [he] at hm
                  injection hm with hm
                  rw [← hm]
                  exact ⟨hfp0, hvv⟩
                · have he : (mergeEntry files S (lookupPriority files S) M K ci0).1
                      = some { ci0 with Value := v } := by
                    unfold mergeEntry; simp [hfp0, hv, hvv]
                  rw [he] at hm
                  injection hm with hm
                  rw [← hm]
                  exact ⟨hfp0, rfl⟩
              constructor
              · unfold mergeEntry; simp [hci1.1, hv, hci1.2]
              · left; unfold mergeEntry; simp [hci1.1, hv, hci1.2]
          · have hfp1 : ci1.FilePath = ci0.FilePath := mergeEntry_filePath hm
            have hfS : ci1.FilePath ≠ S := by rw [hfp1]; exact hfp0
            cases hv : List.lookup K M with
            | none =>
              constructor
              · unfold mergeEntry; simp [hfS, hv]
              · left; unfold mergeEntry; simp [hfS, hv]
            | some v =>
              by_cases hq1 : lookupPriority files ci0.FilePath = lookupPriority files S
              · have he : (mergeEntry files S (lookupPriority files S) M K ci0).1
                    = some { ci0 with Value := v } := by
                  unfold mergeEntry; simp [hfp0, hv, hq1]
                rw [he] at hm
                injection hm with hm
                have hval : ci1.Value = v := by rw [← hm]
                have hq1' : lookupPriority files ci1.FilePath = lookupPriority files S := by
                  rw [hfp1]; exact hq1
                constructor
                · unfold mergeEntry
                  simp [hfS, hv, hq1', configinfo_update_self ci1 v hval]
                · left; unfold mergeEntry; simp [hfS, hv, hq1']
              · by_cases hq2 : lookupPriority files S < lookupPriority files ci0.FilePath
                · have he : (mergeEntry files S (lookupPriority files S) M K ci0).1
                      = some { ci0 with Value := v } := by
                    unfold mergeEntry; simp [hfp0, hv, hq1, hq2]
                  rw [he] at hm
                  injection hm with hm
                  have hval : ci1.Value = v := by rw [← hm]
                  have hq1' : lookupPriority files ci1.FilePath ≠ lookupPriority files S := by
                    rw [hfp1]; exact hq1
                  have hq2' : lookupPriority files S < lookupPriority files ci1.FilePath := by
                    rw [hfp1]; exact hq2
                  constructor
                  · unfold mergeEntry
                    simp [hfS, hv, hq1', hq2', configinfo_update_self ci1 v hval]
                  · right
                    exact ⟨hfS, rfl, hq2', ci0, rfl, hfp1.symm⟩
                · have hq1' : lookupPriority files ci1.FilePath ≠ lookupPriority files S := by
                    rw [hfp1]; exact hq1
                  have hq2' : ¬ lookupPriority files S < lookupPriority files ci1.FilePath := by
                    rw [hfp1]; exact hq2
                  constructor
                  · unfold mergeEntry; simp [hfS, hv, hq1', hq2']
                  · left; unfold mergeEntry; simp [hfS, hv, hq1', hq2']
  refine ⟨st1, e1, hcu1, st2, e2, hcu2, ?_, ?_⟩
  · intro K
    rcases hlk1 : List.lookup K st1 with _ | oci
    · have h2 := (hout2 K hlk1).1
      cases hv : List.lookup K M with
      | none =>
        rw [hv] at h2
        rw [h2]
        rfl
      | some v =>
        have hsome := hcov K (by rw [hv]; rfl)
        rw [hlk1] at hsome
        exact absurd hsome (by simp)
    · cases oci with
      | none => exact absurd hlk1 (lookup_ne_some_none hall1)
      | some ci1 =>
        have h2 := (hin2 K ci1 hlk1).1
        rw [h2, (hB K ci1 hlk1).1]
        rfl
  · intro hcond
    by_contra hneq
    obtain ⟨e, he⟩ := List.exists_mem_of_ne_nil e2 hneq
    have hfe : e ∈ e2.filter (fun x => x.Key == e.Key) :=
      List.mem_filter.mpr ⟨he, by simp⟩
    rcases hlk1 : List.lookup e.Key st1 with _ | oci
    · have h2 := (hout2 e.Key hlk1).2
      cases hv : List.lookup e.Key M with
      | none =>
        rw [hv] at h2
        rw [h2] at hfe
        simp at hfe
      | some v =>
        have hsome := hcov e.Key (by rw [hv]; rfl)
        rw [hlk1] at hsome
        exact absurd hsome (by simp)
    · cases oci with
      | none => exact absurd hlk1 (lookup_ne_some_none hall1)
      | some ci1 =>
        have h2 := (hin2 e.Key ci1 hlk1).2
        rcases (hB e.Key ci1 hlk1).2 with hnone | ⟨hfS, hMs, hQ, ci0, hlk0, hfp0⟩
        · rw [hnone] at h2
          rw [h2] at hfe
          simp at hfe
        · have hle := hcond e.Key ci0 hlk0 (by rw [hfp0]; exact hfS) hMs
          rw [hfp0] at hle
          omega

/-- Witness for merge_idempotence_amended at a concrete input. -/
theorem merge_idempotence_amended_witness :
    allSome ([] : Store Nat) ∧ (keys ([] : Store Nat)).Nodup ∧
    (∃ st1 e1, compareUpdate [⟨"a", 1⟩] ([] : Store Nat) [("x", 2)] "a"
        = some (st1, e1) ∧
    ∃ st2 e2, compareUpdate [⟨"a", 1⟩] st1 [("x", 2)] "a" = some (st2, e2) ∧
      (∀ K, List.lookup K st2 = List.lookup K st1) ∧
      ((∀ K ci, List.lookup K ([] : Store Nat) = some (some ci) → ci.FilePath ≠ "a" →
          (List.lookup K [("x", (2 : Nat))]).isSome →
          lookupPriority [⟨"a", 1⟩] ci.FilePath ≤ lookupPriority [⟨"a", 1⟩] "a") →
        e2 = [])) :=
  ⟨by decide, by decide,
    merge_idempotence_amended [⟨"a", 1⟩] ([] : Store Nat) [("x", 2)] "a"
      (by decide) (by decide)⟩

end ConfigMap
